import Mathlib

/-!
# Verification of `trello_report/reporter.py`

A shallow embedding of the pure logic of the report generator:

* the label-ordering policy `get_board_labels`,
* the card view `CardData` (cached, cutoff-filtered comments; `updated_since`),
* the card fetching/split `get_cards` and the per-label grouping loop of `main`,
* the lookups `get_board` / `get_list` and the assertion-guarded prelude of
  `main`.

Modelling conventions:

* Timestamps are integers (ticks); `datetime` comparison becomes `<` on `Int`
  and `timedelta(days=d)` becomes `d * secondsPerDay`.
* A Python `set` is modelled as a duplicate-free `List` whose order stands for
  the set's iteration order.  CPython's iteration order for a set of strings
  is unspecified (hash-based and randomized), so wherever that order can be
  observed the embedding takes the ordered list as an input: in particular
  `get_board_labels` receives `labels0`, the set
  `{l.name for l in board.get_labels() if l.name != SKIP_LABEL}` in its
  iteration order, and the iterations `for label in set(labels)` and
  `list(labels)` inside the function reuse the relative order of `labels0`
  (any single run iterates a given set of strings consistently).
  Statements about the produced order therefore quantify over every
  admissible `labels0`.
* The card pools `updated_cards` / `stale_cards` are sets of freshly built
  `CardData` objects; they are modelled as lists, order immaterial to the
  claims (membership, disjointness, counting).
-/

namespace TrelloReport

/-- `SKIP_LABEL` of reporter.py: the sentinel label that excludes a card from
the report. -/
def SKIP_LABEL : String := "Skip-for-report"

/-! ## The label-ordering policy (`get_board_labels`) -/

/-- The set comprehension `{l.name for l in board.get_labels() if l.name !=
SKIP_LABEL}` with first-occurrence order as representative iteration order:
duplicate names collapse, the skip sentinel is dropped. -/
def labelNameSet (names : List String) : List String :=
  (names.filter (fun n => n != SKIP_LABEL)).dedup

/-- The first loop of `get_board_labels`: `for label in top_labels: if label
in labels: res.append(label); labels.remove(label)`.  Returns the appended
labels (in order) and the remaining set. -/
def topPass : List String → List String → List String × List String
  | [], labels => ([], labels)
  | t :: ts, labels =>
    if t ∈ labels then
      let p := topPass ts (labels.erase t)
      (t :: p.1, p.2)
    else topPass ts labels

/-- The second loop of `get_board_labels`: `for label in set(labels): if label
not in bottom_labels: res.append(label); labels.remove(label)`.  The first
list argument is the iterated copy `set(labels)`, the second the mutated set
`labels`. -/
def middlePass (bottom : List String) : List String → List String → List String × List String
  | [], labels => ([], labels)
  | c :: cs, labels =>
    if c ∈ bottom then middlePass bottom cs labels
    else
      let p := middlePass bottom cs (labels.erase c)
      (c :: p.1, p.2)

/-- `get_board_labels(board, top_labels, bottom_labels)` of reporter.py,
with `labels0` the board's non-skip label-name set in its iteration order:
top pass, middle pass over a copy, then `res += list(labels)`. -/
def get_board_labels (labels0 top bottom : List String) : List String :=
  let p1 := topPass top labels0
  let p2 := middlePass bottom p1.2 p1.2
  p1.1 ++ (p2.1 ++ p2.2)

/-! ## Cards: `CardData`, `get_cards`, the grouping loop of `main` -/

/-- One raw comment of a card, as `card.get_comments()` returns it: its
`type` field, its own `date`, and `data.text` when both keys are present
(`none` models a comment without `data`/`text`). -/
structure Comment where
  type : String
  date : Int
  text : Option String
deriving DecidableEq

/-- A card as fetched from the API: source id, name, description, label
names, raw comments, and `dateLastActivity`. -/
structure Card where
  id : Nat
  name : String
  desc : String
  labels : List String
  comments : List Comment
  dateLastActivity : Int
deriving DecidableEq

/-- The read-optimized view `CardData` builds in `__init__`: the fields it
caches from the wrapped card.  (`_attachments` and `_checklists` are cached
unfiltered and play no role in the claims.) -/
structure CardData where
  id : Nat
  name : String
  desc : String
  labels : List String
  commentsCache : List Comment
  dateLastActivity : Int
deriving DecidableEq

/-- `CardData.__init__(card, updates_since)`: caches the card's comments,
keeping (when a cutoff is given) only those whose own date is strictly after
`updates_since`. -/
def CardData.init (card : Card) (updates_since : Option Int) : CardData :=
  ⟨card.id, card.name, card.desc, card.labels,
    card.comments.filter (fun c =>
      match updates_since with
      | none => true
      | some t => decide (t < c.date)),
    card.dateLastActivity⟩

/-- The `comments` property: of the cached comments, those of type
`commentCard` that carry `data.text`. -/
def CardData.comments (cd : CardData) : List String :=
  cd.commentsCache.filterMap (fun c =>
    if c.type = "commentCard" then c.text else none)

/-- `CardData.updated_since(timestamp)`: `timestamp is None or
self.date_last_activity > timestamp`. -/
def CardData.updated_since (cd : CardData) (timestamp : Option Int) : Bool :=
  match timestamp with
  | none => true
  | some t => decide (t < cd.dateLastActivity)

/-- `get_cards(l, updated_since)`: wrap each card of the list, skip cards
carrying the skip label, and split the rest by `updated_since` into the
updated and stale pools.  The two Python sets are modelled as lists. -/
def get_cards : List Card → Option Int → List CardData × List CardData
  | [], _ => ([], [])
  | card :: rest, since =>
    let cd := CardData.init card since
    let p := get_cards rest since
    if SKIP_LABEL ∈ cd.labels then p
    else if cd.updated_since since then (cd :: p.1, p.2)
    else (p.1, cd :: p.2)

/-- `get_cards_by_label(cards, label)`: the cards of the pool carrying the
label. -/
def get_cards_by_label (cards : List CardData) (label : String) : List CardData :=
  cards.filter (fun c => decide (label ∈ c.labels))

/-- The per-label loop of `main`: for each label in order, the pool's cards
carrying it form a subsection (omitted when empty, matching
`if labeled_cards:`) and are removed from the pool; the final pool is the
`Other` bucket. -/
def group_by_labels : List String → List CardData → List (String × List CardData) × List CardData
  | [], cards => ([], cards)
  | label :: rest, cards =>
    let labeled := get_cards_by_label cards label
    let remaining := cards.filter (fun c => decide (label ∉ c.labels))
    let p := group_by_labels rest remaining
    (if labeled.isEmpty then p.1 else (label, labeled) :: p.1, p.2)

/-! ## Boards, lists, and the prelude and output of `main` -/

/-- An open list on the board: its name and its cards. -/
structure TList where
  name : String
  cards : List Card
deriving DecidableEq

/-- A board: its name, the names of its labels (`board.get_labels()`), and
its open lists. -/
structure TBoard where
  name : String
  labelNames : List String
  openLists : List TList
deriving DecidableEq

/-- `get_board(api, name)`: `board = [b for b in api.list_boards() if b.name
== name]; return board[0] if board else None`. -/
def get_board (boards : List TBoard) (name : String) : Option TBoard :=
  (boards.filter (fun b => b.name == name)).head?

/-- `get_list(board, name)`: the same first-match lookup over
`board.open_lists()`. -/
def get_list (board : TBoard) (name : String) : Option TList :=
  (board.openLists.filter (fun l => l.name == name)).head?

/-- Ticks per day, fixing the scale of `timedelta(days=...)`. -/
def secondsPerDay : Int := 86400

/-- `since = (datetime.now(utc) - timedelta(days=days)) if days else None`:
Python truthiness makes both `None` and `0` produce no cutoff. -/
def compute_since (now : Int) (days : Option Int) : Option Int :=
  match days with
  | none => none
  | some d => if d = 0 then none else some (now - d * secondsPerDay)

/-- What `main` prints for one list: the label subsections in order, the
`Other` bucket, and the `Not updated` bucket (each of the last two rendered
only when non-empty). -/
structure ListReport where
  listName : String
  sections : List (String × List CardData)
  other : List CardData
  notUpdated : List CardData
deriving DecidableEq

/-- The body of `main`'s `for l in (in_progress_list, done_list)` loop for
one list: fetch and split the cards, then group the updated pool by the
ordered labels. -/
def build_list_report (l : TList) (labels : List String) (since : Option Int) : ListReport :=
  let p := get_cards l.cards since
  let q := group_by_labels labels p.1
  ⟨l.name, q.1, q.2, p.2⟩

/-- `if not_updated:` — the `Not updated` subsection is rendered exactly when
the stale pool is non-empty. -/
def not_updated_section_produced (r : ListReport) : Bool :=
  !r.notUpdated.isEmpty

/-- The part of `main` after the board is found: look up the two lists (each
`assert`-guarded) and produce the two list reports. -/
def main_with_board (b : TBoard) (ip_name done_name : String)
    (top bottom : List String) (days : Option Int) (now : Int) :
    Except String (ListReport × ListReport) :=
  match get_list b ip_name with
  | none => Except.error "assert in_progress_list is not None"
  | some ip =>
    match get_list b done_name with
    | none => Except.error "assert done_list is not None"
    | some dl =>
      let labels := get_board_labels (labelNameSet b.labelNames) top bottom
      let since := compute_since now days
      Except.ok (build_list_report ip labels since, build_list_report dl labels since)

/-- `main` up to its output: look up the board and the two lists (each
`assert`-guarded: a failed lookup aborts, modelled as `Except.error`, before
any output exists), then produce the two list reports. -/
def main_run (boards : List TBoard) (board_name ip_name done_name : String)
    (top bottom : List String) (days : Option Int) (now : Int) :
    Except String (ListReport × ListReport) :=
  match get_board boards board_name with
  | none => Except.error "assert b is not None"
  | some b => main_with_board b ip_name done_name top bottom days now

/-- Effects `main` could perform on the board after rendering. -/
inductive FinalAction where
  | archiveAllCards (listName : String)
deriving DecidableEq

/-- The board-mutating actions `main` performs after printing the report, as
a function of the one mode flag (`--days`).  In the source the only
candidate, `done_list.archive_all_cards()`, is commented out
(`# done_list.archive_all_cards()`), so no mode performs any. -/
def main_final_actions (_days : Option Int) : List FinalAction := []

/-! ## Concrete sample data for witnesses -/

/-- A card carrying the skip sentinel. -/
def skipCard : Card := ⟨0, "skipme", "", [SKIP_LABEL], [], 5⟩

/-- A card labelled `A`, last active at time 10. -/
def cardA : Card := ⟨1, "a", "", ["A"], [], 10⟩

/-- The view `get_cards` would build of `skipCard` with no cutoff. -/
def skipCardData : CardData := CardData.init skipCard none

/-! ### Lemmas about the two passes -/

theorem topPass_perm (ts : List String) :
    ∀ labels : List String, ((topPass ts labels).1 ++ (topPass ts labels).2).Perm labels := by
  induction ts with
  | nil => intro labels; simp [topPass]
  | cons t ts ih =>
    intro labels
    by_cases h : t ∈ labels
    · have hstep := ih (labels.erase t)
      have h2 : (t :: ((topPass ts (labels.erase t)).1 ++ (topPass ts (labels.erase t)).2)).Perm
          (t :: labels.erase t) := hstep.cons t
      simp only [topPass, if_pos h]
      exact h2.trans (List.perm_cons_erase h).symm
    · simp only [topPass, if_neg h]
      exact ih labels

theorem topPass_fst_mem (ts : List String) :
    ∀ labels : List String, ∀ x ∈ (topPass ts labels).1, x ∈ ts := by
  induction ts with
  | nil => intro labels x hx; simp [topPass] at hx
  | cons t ts ih =>
    intro labels x hx
    by_cases h : t ∈ labels
    · simp only [topPass, if_pos h] at hx
      rcases List.mem_cons.mp hx with hx | hx
      · simp [hx]
      · exact List.mem_cons_of_mem _ (ih _ x hx)
    · simp only [topPass, if_neg h] at hx
      exact List.mem_cons_of_mem _ (ih _ x hx)

theorem topPass_snd_mem (ts : List String) :
    ∀ labels x, x ∈ labels → x ∉ ts → x ∈ (topPass ts labels).2 := by
  induction ts with
  | nil => intro labels x hx _; simpa [topPass] using hx
  | cons t ts ih =>
    intro labels x hx hnot
    have hxt : x ≠ t := fun h => hnot (h ▸ List.mem_cons_self t ts)
    have hxts : x ∉ ts := fun h => hnot (List.mem_cons_of_mem _ h)
    by_cases h : t ∈ labels
    · simp only [topPass, if_pos h]
      exact ih _ x ((List.mem_erase_of_ne hxt).mpr hx) hxts
    · simp only [topPass, if_neg h]
      exact ih _ x hx hxts

theorem topPass_snd_nodup (ts labels : List String) (h : labels.Nodup) :
    (topPass ts labels).2.Nodup :=
  (((topPass_perm ts labels).symm.nodup_iff).mp h).of_append_right

theorem topPass_snd_subset (ts labels : List String) :
    (topPass ts labels).2 ⊆ labels := by
  intro x hx
  exact (topPass_perm ts labels).subset (List.mem_append_right _ hx)

theorem middlePass_perm (bottom : List String) :
    ∀ cs labels : List String, labels.Nodup → cs.Nodup → cs ⊆ labels →
      ((middlePass bottom cs labels).1 ++ (middlePass bottom cs labels).2).Perm labels := by
  intro cs
  induction cs with
  | nil => intro labels _ _ _; simp [middlePass]
  | cons c cs ih =>
    intro labels hnd hcs hsub
    by_cases h : c ∈ bottom
    · simp only [middlePass, if_pos h]
      exact ih labels hnd hcs.of_cons fun x hx => hsub (List.mem_cons_of_mem _ hx)
    · have hc : c ∈ labels := hsub (List.mem_cons_self c cs)
      have hsub2 : cs ⊆ labels.erase c := by
        intro x hx
        have hxc : x ≠ c := fun he => (List.nodup_cons.mp hcs).1 (he ▸ hx)
        exact (List.mem_erase_of_ne hxc).mpr (hsub (List.mem_cons_of_mem _ hx))
      have hstep := ih (labels.erase c) (hnd.erase c) hcs.of_cons hsub2
      simp only [middlePass, if_neg h]
      exact ((hstep.cons c).trans (List.perm_cons_erase hc).symm)

theorem middlePass_fst_not_bottom (bottom : List String) :
    ∀ cs labels : List String, ∀ x ∈ (middlePass bottom cs labels).1, x ∉ bottom := by
  intro cs
  induction cs with
  | nil => intro labels x hx; simp [middlePass] at hx
  | cons c cs ih =>
    intro labels x hx
    by_cases h : c ∈ bottom
    · simp only [middlePass, if_pos h] at hx
      exact ih _ x hx
    · simp only [middlePass, if_neg h] at hx
      rcases List.mem_cons.mp hx with hx | hx
      · exact hx ▸ h
      · exact ih _ x hx

theorem middlePass_snd_bottom (bottom : List String) :
    ∀ cs labels : List String, labels.Nodup →
      (∀ x ∈ labels, x ∉ bottom → x ∈ cs) →
      ∀ x ∈ (middlePass bottom cs labels).2, x ∈ bottom := by
  intro cs
  induction cs with
  | nil =>
    intro labels _ hcov x hx
    simp only [middlePass] at hx
    by_contra hb
    exact List.not_mem_nil x (hcov x hx hb)
  | cons c cs ih =>
    intro labels hnd hcov x hx
    by_cases h : c ∈ bottom
    · simp only [middlePass, if_pos h] at hx
      refine ih labels hnd (fun y hy hyb => ?_) x hx
      rcases List.mem_cons.mp (hcov y hy hyb) with he | hm
      · exact absurd (he ▸ h) hyb
      · exact hm
    · simp only [middlePass, if_neg h] at hx
      refine ih (labels.erase c) (hnd.erase c) (fun y hy hyb => ?_) x hx
      have hyc : y ≠ c := ((hnd.mem_erase_iff).mp hy).1
      have hy2 : y ∈ labels := ((hnd.mem_erase_iff).mp hy).2
      rcases List.mem_cons.mp (hcov y hy2 hyb) with he | hm
      · exact absurd he hyc
      · exact hm

theorem middlePass_snd_mem (bottom : List String) :
    ∀ cs labels x, x ∈ labels → x ∈ bottom → x ∈ (middlePass bottom cs labels).2 := by
  intro cs
  induction cs with
  | nil => intro labels x hx _; simpa [middlePass] using hx
  | cons c cs ih =>
    intro labels x hx hxb
    by_cases h : c ∈ bottom
    · simp only [middlePass, if_pos h]
      exact ih _ x hx hxb
    · have hxc : x ≠ c := fun he => h (he ▸ hxb)
      simp only [middlePass, if_neg h]
      exact ih _ x ((List.mem_erase_of_ne hxc).mpr hx) hxb

theorem get_board_labels_perm (labels0 top bottom : List String) (hnd : labels0.Nodup) :
    (get_board_labels labels0 top bottom).Perm labels0 := by
  have h1 := topPass_perm top labels0
  have hnd2 : (topPass top labels0).2.Nodup := topPass_snd_nodup top labels0 hnd
  have h2 := middlePass_perm bottom (topPass top labels0).2 (topPass top labels0).2
    hnd2 hnd2 (fun x hx => hx)
  exact (h2.append_left (topPass top labels0).1).trans h1

theorem mem_labelNameSet (names : List String) (x : String) :
    x ∈ labelNameSet names ↔ x ∈ names ∧ x ≠ SKIP_LABEL := by
  simp [labelNameSet, List.mem_dedup, List.mem_filter, bne_iff_ne]

/-- C1: for every board label set (in any iteration order) and every
top/bottom configuration, the produced order contains each non-skip label of
the board exactly once and contains no other element. -/
theorem C1_label_order_exactly_once (names top bottom labels0 : List String)
    (h : labels0.Perm (labelNameSet names)) (x : String) :
    (get_board_labels labels0 top bottom).count x =
      if x ≠ SKIP_LABEL ∧ x ∈ names then 1 else 0 := by
  have hnd0 : (labelNameSet names).Nodup := List.nodup_dedup _
  have hnd : labels0.Nodup := (h.nodup_iff).mpr hnd0
  have hperm : (get_board_labels labels0 top bottom).Perm (labelNameSet names) :=
    (get_board_labels_perm labels0 top bottom hnd).trans h
  rw [hperm.count_eq]
  by_cases hx : x ≠ SKIP_LABEL ∧ x ∈ names
  · rw [if_pos hx]
    exact List.count_eq_one_of_mem hnd0 ((mem_labelNameSet names x).mpr ⟨hx.2, hx.1⟩)
  · rw [if_neg hx]
    refine List.count_eq_zero.mpr (fun hmem => ?_)
    have := (mem_labelNameSet names x).mp hmem
    exact hx ⟨this.2, this.1⟩

theorem C1_label_order_exactly_once_witness :
    (["B", "A"] : List String).Perm (labelNameSet ["A", "Skip-for-report", "B"]) ∧
    (get_board_labels ["B", "A"] ["B"] []).count "A" =
      if "A" ≠ SKIP_LABEL ∧ "A" ∈ (["A", "Skip-for-report", "B"] : List String) then 1 else 0 :=
  ⟨by decide,
    C1_label_order_exactly_once ["A", "Skip-for-report", "B"] ["B"] [] ["B", "A"] (by decide) "A"⟩

/-- C2 (counterexample): with the board's label set iterating as `["D", "C"]`,
no top labels and bottom list `["C", "D"]`, the produced sequence is
`["D", "C"]`, so the bottom labels do not appear in the relative order of the
configured bottom list `["C", "D"]`. -/
theorem C2_bottom_order_counterexample :
    get_board_labels ["D", "C"] [] ["C", "D"] = ["D", "C"] ∧
    (get_board_labels ["D", "C"] [] ["C", "D"]).filter
        (fun x => decide (x ∈ (["C", "D"] : List String))) ≠
      (["C", "D"] : List String).filter (fun x => decide (x ∈ (["D", "C"] : List String))) := by
  decide

/-- C2 (amended): the labels designated bottom that are present on the board
and not already emitted by the top pass appear together at the end of the
produced sequence; their relative order is the set's (unspecified) iteration
order, not necessarily the configured bottom-list order. -/
theorem C2_bottom_labels_at_end (labels0 top bottom : List String) (hnd : labels0.Nodup) :
    ∃ pre suf : List String,
      get_board_labels labels0 top bottom = pre ++ suf ∧
      (∀ x ∈ suf, x ∈ bottom) ∧
      (∀ x ∈ labels0, x ∈ bottom → x ∉ top → x ∈ suf) ∧
      (∀ x ∈ pre, x ∈ top ∨ x ∉ bottom) := by
  refine ⟨(topPass top labels0).1 ++
      (middlePass bottom (topPass top labels0).2 (topPass top labels0).2).1,
    (middlePass bottom (topPass top labels0).2 (topPass top labels0).2).2, ?_, ?_, ?_, ?_⟩
  · simp [get_board_labels]
  · intro x hx
    exact middlePass_snd_bottom bottom _ _ (topPass_snd_nodup top labels0 hnd)
      (fun y hy _ => hy) x hx
  · intro x hx hxb hxt
    exact middlePass_snd_mem bottom _ _ x (topPass_snd_mem top labels0 x hx hxt) hxb
  · intro x hx
    rcases List.mem_append.mp hx with hx | hx
    · exact Or.inl (topPass_fst_mem top labels0 x hx)
    · exact Or.inr (middlePass_fst_not_bottom bottom _ _ x hx)

theorem C2_bottom_labels_at_end_witness :
    (["A", "C"] : List String).Nodup ∧
    (∃ pre suf : List String,
      get_board_labels ["A", "C"] [] ["C"] = pre ++ suf ∧
      (∀ x ∈ suf, x ∈ (["C"] : List String)) ∧
      (∀ x ∈ (["A", "C"] : List String), x ∈ (["C"] : List String) →
        x ∉ ([] : List String) → x ∈ suf) ∧
      (∀ x ∈ pre, x ∈ ([] : List String) ∨ x ∉ (["C"] : List String))) :=
  ⟨by decide, C2_bottom_labels_at_end ["A", "C"] [] ["C"] (by decide)⟩

/-- C6: on the label set `{A, B, C}` (in any iteration order) with
top = `[B]` and bottom = `[C]`, the policy produces exactly `[B, A, C]`. -/
theorem C6_example_order (labels0 : List String)
    (h : labels0.Perm ["A", "B", "C"]) :
    get_board_labels labels0 ["B"] ["C"] = ["B", "A", "C"] := by
  have hmem : labels0 ∈ (["A", "B", "C"] : List String).permutations' :=
    List.mem_permutations'.mpr h
  have key : ∀ l ∈ (["A", "B", "C"] : List String).permutations',
      get_board_labels l ["B"] ["C"] = ["B", "A", "C"] := by decide
  exact key labels0 hmem

theorem C6_example_order_witness :
    (["A", "B", "C"] : List String).Perm ["A", "B", "C"] ∧
    get_board_labels ["A", "B", "C"] ["B"] ["C"] = ["B", "A", "C"] :=
  ⟨by decide, C6_example_order ["A", "B", "C"] (by decide)⟩

/-! ### Lemmas about `get_cards` and the grouping loop -/

theorem get_cards_cons (card : Card) (rest : List Card) (since : Option Int) :
    get_cards (card :: rest) since =
      if SKIP_LABEL ∈ (CardData.init card since).labels then get_cards rest since
      else if (CardData.init card since).updated_since since then
        (CardData.init card since :: (get_cards rest since).1, (get_cards rest since).2)
      else ((get_cards rest since).1, CardData.init card since :: (get_cards rest since).2) :=
  rfl

theorem get_cards_fst_spec (cards : List Card) (since : Option Int) :
    ∀ cd ∈ (get_cards cards since).1,
      SKIP_LABEL ∉ cd.labels ∧ cd.updated_since since = true := by
  induction cards with
  | nil => intro cd h; simp [get_cards] at h
  | cons card rest ih =>
    intro cd h
    rw [get_cards_cons] at h
    split_ifs at h with h1 h2
    · exact ih cd h
    · rcases List.mem_cons.mp h with he | hm
      · subst he; exact ⟨h1, h2⟩
      · exact ih cd hm
    · exact ih cd h

theorem get_cards_snd_spec (cards : List Card) (since : Option Int) :
    ∀ cd ∈ (get_cards cards since).2,
      SKIP_LABEL ∉ cd.labels ∧ cd.updated_since since = false := by
  induction cards with
  | nil => intro cd h; simp [get_cards] at h
  | cons card rest ih =>
    intro cd h
    rw [get_cards_cons] at h
    split_ifs at h with h1 h2
    · exact ih cd h
    · exact ih cd h
    · rcases List.mem_cons.mp h with he | hm
      · subst he; exact ⟨h1, Bool.not_eq_true _ ▸ Bool.eq_false_iff.mpr h2⟩
      · exact ih cd hm

theorem get_cards_fst_mem (cards : List Card) (since : Option Int) (card : Card)
    (hm : card ∈ cards) (hskip : SKIP_LABEL ∉ card.labels)
    (hupd : (CardData.init card since).updated_since since = true) :
    CardData.init card since ∈ (get_cards cards since).1 := by
  induction cards with
  | nil => simp at hm
  | cons hd tl ih =>
    rw [get_cards_cons]
    rcases List.mem_cons.mp hm with he | htl
    · subst he
      rw [if_neg (show SKIP_LABEL ∉ (CardData.init card since).labels from hskip),
        if_pos hupd]
      exact List.mem_cons_self _ _
    · split_ifs with h1 h2
      · exact ih htl
      · exact List.mem_cons_of_mem _ (ih htl)
      · exact ih htl

theorem get_cards_snd_mem (cards : List Card) (since : Option Int) (card : Card)
    (hm : card ∈ cards) (hskip : SKIP_LABEL ∉ card.labels)
    (hupd : (CardData.init card since).updated_since since = false) :
    CardData.init card since ∈ (get_cards cards since).2 := by
  induction cards with
  | nil => simp at hm
  | cons hd tl ih =>
    rw [get_cards_cons]
    rcases List.mem_cons.mp hm with he | htl
    · subst he
      rw [if_neg (show SKIP_LABEL ∉ (CardData.init card since).labels from hskip),
        if_neg (by simp [hupd])]
      exact List.mem_cons_self _ _
    · split_ifs with h1 h2
      · exact ih htl
      · exact ih htl
      · exact List.mem_cons_of_mem _ (ih htl)

theorem group_by_labels_cons (label : String) (rest : List String) (cards : List CardData) :
    group_by_labels (label :: rest) cards =
      (if (get_cards_by_label cards label).isEmpty
        then (group_by_labels rest (cards.filter (fun c => decide (label ∉ c.labels)))).1
        else (label, get_cards_by_label cards label) ::
          (group_by_labels rest (cards.filter (fun c => decide (label ∉ c.labels)))).1,
       (group_by_labels rest (cards.filter (fun c => decide (label ∉ c.labels)))).2) :=
  rfl

theorem group_by_labels_sections_spec (ls : List String) :
    ∀ cards : List CardData, ∀ s ∈ (group_by_labels ls cards).1,
      s.1 ∈ ls ∧ ∀ c ∈ s.2, c ∈ cards ∧ s.1 ∈ c.labels := by
  induction ls with
  | nil => intro cards s hs; simp [group_by_labels] at hs
  | cons label rest ih =>
    intro cards s hs
    rw [group_by_labels_cons] at hs
    by_cases hemp : (get_cards_by_label cards label).isEmpty
    · rw [if_pos hemp] at hs
      obtain ⟨h1, h2⟩ := ih _ s hs
      refine ⟨List.mem_cons_of_mem _ h1, fun c hc => ?_⟩
      obtain ⟨hcm, hcl⟩ := h2 c hc
      exact ⟨List.mem_of_mem_filter hcm, hcl⟩
    · rw [if_neg hemp] at hs
      rcases List.mem_cons.mp hs with he | hm
      · subst he
        refine ⟨List.mem_cons_self _ _, fun c hc => ?_⟩
        have := List.mem_filter.mp hc
        exact ⟨this.1, by simpa using this.2⟩
      · obtain ⟨h1, h2⟩ := ih _ s hm
        refine ⟨List.mem_cons_of_mem _ h1, fun c hc => ?_⟩
        obtain ⟨hcm, hcl⟩ := h2 c hc
        exact ⟨List.mem_of_mem_filter hcm, hcl⟩

theorem group_by_labels_leftover_spec (ls : List String) :
    ∀ cards : List CardData, ∀ c ∈ (group_by_labels ls cards).2,
      c ∈ cards ∧ ∀ l ∈ ls, l ∉ c.labels := by
  induction ls with
  | nil => intro cards c hc; exact ⟨hc, by simp⟩
  | cons label rest ih =>
    intro cards c hc
    rw [group_by_labels_cons] at hc
    obtain ⟨hcm, hrest⟩ := ih _ c hc
    have hf := List.mem_filter.mp hcm
    have hnl : label ∉ c.labels := by simpa using hf.2
    refine ⟨hf.1, fun l hl => ?_⟩
    rcases List.mem_cons.mp hl with he | hm
    · exact he ▸ hnl
    · exact hrest l hm

theorem group_by_labels_at_most_one (ls : List String) :
    ∀ cards : List CardData, ∀ c : CardData,
      ((group_by_labels ls cards).1.filter (fun s => decide (c ∈ s.2))).length ≤ 1 := by
  induction ls with
  | nil => intro cards c; simp [group_by_labels]
  | cons label rest ih =>
    intro cards c
    rw [group_by_labels_cons]
    by_cases hemp : (get_cards_by_label cards label).isEmpty
    · rw [if_pos hemp]; exact ih _ c
    · rw [if_neg hemp]
      simp only [List.filter_cons]
      by_cases hc : c ∈ get_cards_by_label cards label
      · have hlab : label ∈ c.labels :=
          of_decide_eq_true (List.mem_filter.mp hc).2
        have hnone : ((group_by_labels rest
            (cards.filter (fun c => decide (label ∉ c.labels)))).1.filter
              (fun s => decide (c ∈ s.2))) = [] := by
          rw [List.filter_eq_nil_iff]
          intro s hs hp
          have hcs : c ∈ s.2 := of_decide_eq_true hp
          have hmem : c ∈ cards.filter (fun c => decide (label ∉ c.labels)) :=
            ((group_by_labels_sections_spec rest _ s hs).2 c hcs).1
          exact (of_decide_eq_true (List.mem_filter.mp hmem).2 : label ∉ c.labels) hlab
        rw [if_pos (decide_eq_true hc), hnone]
        simp
      · rw [if_neg (by simpa using hc)]
        exact ih _ c

/-- C4: each card is placed in at most one label subsection, always under a
label it carries, and a card placed in a subsection is absent from the
`Other` bucket (the leftover pool). -/
theorem C4_card_in_at_most_one_section (labels : List String) (pool : List CardData)
    (c : CardData) :
    ((group_by_labels labels pool).1.filter (fun s => decide (c ∈ s.2))).length ≤ 1 ∧
    (∀ s ∈ (group_by_labels labels pool).1, c ∈ s.2 → s.1 ∈ c.labels) ∧
    (∀ s ∈ (group_by_labels labels pool).1, c ∈ s.2 →
      c ∉ (group_by_labels labels pool).2) := by
  refine ⟨group_by_labels_at_most_one labels pool c, ?_, ?_⟩
  · intro s hs hcs
    exact ((group_by_labels_sections_spec labels pool s hs).2 c hcs).2
  · intro s hs hcs hleft
    have h1 := (group_by_labels_sections_spec labels pool s hs).1
    have h2 := ((group_by_labels_sections_spec labels pool s hs).2 c hcs).2
    exact (group_by_labels_leftover_spec labels pool c hleft).2 s.1 h1 h2

/-- C3: a card view carrying the skip sentinel is in neither pool `get_cards`
returns, hence in no label subsection, not in `Other`, and not in
`Not updated`. -/
theorem C3_skip_card_never_reported (cards : List Card) (since : Option Int)
    (labels : List String) (cd : CardData) (hskip : SKIP_LABEL ∈ cd.labels) :
    cd ∉ (get_cards cards since).1 ∧ cd ∉ (get_cards cards since).2 ∧
    (∀ s ∈ (group_by_labels labels (get_cards cards since).1).1, cd ∉ s.2) ∧
    cd ∉ (group_by_labels labels (get_cards cards since).1).2 := by
  have h1 : cd ∉ (get_cards cards since).1 := fun hm =>
    (get_cards_fst_spec cards since cd hm).1 hskip
  have h2 : cd ∉ (get_cards cards since).2 := fun hm =>
    (get_cards_snd_spec cards since cd hm).1 hskip
  refine ⟨h1, h2, ?_, ?_⟩
  · intro s hs hcs
    exact h1 (((group_by_labels_sections_spec labels _ s hs).2 cd hcs).1)
  · intro hleft
    exact h1 ((group_by_labels_leftover_spec labels _ cd hleft).1)

theorem C3_skip_card_never_reported_witness :
    SKIP_LABEL ∈ skipCardData.labels ∧
    (skipCardData ∉ (get_cards [skipCard, cardA] none).1 ∧
     skipCardData ∉ (get_cards [skipCard, cardA] none).2 ∧
     (∀ s ∈ (group_by_labels ["A"] (get_cards [skipCard, cardA] none).1).1,
       skipCardData ∉ s.2) ∧
     skipCardData ∉ (group_by_labels ["A"] (get_cards [skipCard, cardA] none).1).2) :=
  ⟨by decide, C3_skip_card_never_reported [skipCard, cardA] none ["A"] skipCardData (by decide)⟩

/-- C5: with a cutoff `t`, a non-skip card strictly more recent than `t` goes
to the updated pool and not the stale pool; one not strictly more recent goes
to the stale pool and not the updated pool; the pools are disjoint. -/
theorem C5_cutoff_splits_pools (cards : List Card) (t : Int) (card : Card)
    (hm : card ∈ cards) (hskip : SKIP_LABEL ∉ card.labels) :
    (t < card.dateLastActivity →
      CardData.init card (some t) ∈ (get_cards cards (some t)).1 ∧
      CardData.init card (some t) ∉ (get_cards cards (some t)).2) ∧
    (¬ t < card.dateLastActivity →
      CardData.init card (some t) ∈ (get_cards cards (some t)).2 ∧
      CardData.init card (some t) ∉ (get_cards cards (some t)).1) ∧
    (∀ cd ∈ (get_cards cards (some t)).1, cd ∉ (get_cards cards (some t)).2) := by
  have hupd : (CardData.init card (some t)).updated_since (some t) =
      decide (t < card.dateLastActivity) := rfl
  refine ⟨?_, ?_, ?_⟩
  · intro hlt
    have htrue : (CardData.init card (some t)).updated_since (some t) = true := by
      rw [hupd]; exact decide_eq_true hlt
    refine ⟨get_cards_fst_mem cards (some t) card hm hskip htrue, fun hsnd => ?_⟩
    have hbad := (get_cards_snd_spec cards (some t) _ hsnd).2
    rw [htrue] at hbad
    exact absurd hbad (by decide)
  · intro hge
    have hfalse : (CardData.init card (some t)).updated_since (some t) = false := by
      rw [hupd]; exact decide_eq_false hge
    refine ⟨get_cards_snd_mem cards (some t) card hm hskip hfalse, fun hfst => ?_⟩
    have hbad := (get_cards_fst_spec cards (some t) _ hfst).2
    rw [hfalse] at hbad
    exact absurd hbad (by decide)
  · intro cd hfst hsnd
    have h1 := (get_cards_fst_spec cards (some t) cd hfst).2
    have h2 := (get_cards_snd_spec cards (some t) cd hsnd).2
    rw [h1] at h2
    exact absurd h2 (by decide)

theorem C5_cutoff_splits_pools_witness :
    cardA ∈ [cardA] ∧ SKIP_LABEL ∉ cardA.labels ∧
    ((3 < cardA.dateLastActivity →
      CardData.init cardA (some 3) ∈ (get_cards [cardA] (some 3)).1 ∧
      CardData.init cardA (some 3) ∉ (get_cards [cardA] (some 3)).2) ∧
    (¬ 3 < cardA.dateLastActivity →
      CardData.init cardA (some 3) ∈ (get_cards [cardA] (some 3)).2 ∧
      CardData.init cardA (some 3) ∉ (get_cards [cardA] (some 3)).1) ∧
    (∀ cd ∈ (get_cards [cardA] (some 3)).1, cd ∉ (get_cards [cardA] (some 3)).2)) :=
  ⟨by decide, by decide, C5_cutoff_splits_pools [cardA] 3 cardA (by decide) (by decide)⟩

/-! ### Comments under a cutoff (C9) -/

theorem init_commentsCache_some (card : Card) (t : Int) :
    (CardData.init card (some t)).commentsCache =
      card.comments.filter (fun c => decide (t < c.date)) :=
  rfl

theorem init_commentsCache_none (card : Card) :
    (CardData.init card none).commentsCache = card.comments :=
  List.filter_true _

/-- C9: with a cutoff `t`, the `comments` a card view exposes are exactly the
texts of raw comments that are dated strictly after `t`, are of type
`commentCard`, and carry a text — so a comment dated at or before the cutoff
is dropped even when the card itself counts as updated. -/
theorem C9_comments_filtered_by_cutoff (card : Card) (t : Int) (s : String) :
    s ∈ (CardData.init card (some t)).comments ↔
      ∃ c ∈ card.comments, t < c.date ∧ c.type = "commentCard" ∧ c.text = some s := by
  simp only [CardData.comments, init_commentsCache_some, List.mem_filterMap,
    List.mem_filter]
  constructor
  · rintro ⟨c, ⟨hc, hdate⟩, hf⟩
    by_cases ht : c.type = "commentCard"
    · rw [if_pos ht] at hf
      exact ⟨c, hc, of_decide_eq_true hdate, ht, hf⟩
    · rw [if_neg ht] at hf
      exact absurd hf (by simp)
  · rintro ⟨c, hc, hdate, ht, htext⟩
    exact ⟨c, ⟨hc, decide_eq_true hdate⟩, by rw [if_pos ht]; exact htext⟩

/-! ### `--days 0` behaves like no `--days` (C10) -/

theorem get_cards_none_snd : ∀ cards : List Card, (get_cards cards none).2 = [] := by
  intro cards
  induction cards with
  | nil => rfl
  | cons card rest ih =>
    rw [get_cards_cons]
    split_ifs with h1 h2
    · exact ih
    · exact ih
    · exact absurd rfl h2

/-- C10: `--days 0` computes the same `None` cutoff as omitting `--days`, so
the whole report is identical; with no cutoff the stale pool is empty, the
`Not updated` section is never rendered, comments are cached unfiltered, and
every non-skip card lands in the updated pool. -/
theorem C10_days_zero_same_as_omitted (now : Int) (l : TList) (labels : List String)
    (cards : List Card) (card : Card) :
    compute_since now (some 0) = none ∧
    compute_since now none = none ∧
    build_list_report l labels (compute_since now (some 0)) =
      build_list_report l labels (compute_since now none) ∧
    (get_cards cards none).2 = [] ∧
    not_updated_section_produced (build_list_report l labels none) = false ∧
    (CardData.init card none).commentsCache = card.comments ∧
    CardData.updated_since (CardData.init card none) none = true ∧
    (card ∈ cards → SKIP_LABEL ∉ card.labels →
      CardData.init card none ∈ (get_cards cards none).1) := by
  refine ⟨rfl, rfl, rfl, get_cards_none_snd cards, ?_,
    init_commentsCache_none card, rfl, ?_⟩
  · simp [not_updated_section_produced, build_list_report, get_cards_none_snd]
  · intro hm hskip
    exact get_cards_fst_mem cards none card hm hskip rfl

/-! ### First-match lookups and the assertion-guarded prelude (C8) -/

theorem head_filter_eq_none_iff {α : Type} (p : α → Bool) (l : List α) :
    (l.filter p).head? = none ↔ ∀ x ∈ l, p x = false := by
  induction l with
  | nil => simp
  | cons a l ih =>
    rw [List.filter_cons]
    by_cases h : p a = true
    · rw [if_pos h]
      simp [List.forall_mem_cons, h]
    · have hf : p a = false := by simpa using h
      rw [if_neg h, ih]
      simp [List.forall_mem_cons, hf]

theorem head_filter_eq_some {α : Type} (p : α → Bool) (l : List α) (a : α) :
    (l.filter p).head? = some a →
      p a = true ∧ ∃ pre suf, l = pre ++ a :: suf ∧ ∀ x ∈ pre, p x = false := by
  induction l with
  | nil => intro h; simp at h
  | cons b l ih =>
    rw [List.filter_cons]
    by_cases hb : p b = true
    · rw [if_pos hb]
      intro h
      have hba : b = a := by simpa using h
      subst hba
      exact ⟨hb, [], l, rfl, by simp⟩
    · rw [if_neg hb]
      intro h
      obtain ⟨hpa, pre, suf, heq, hpre⟩ := ih h
      have hbf : p b = false := by simpa using hb
      refine ⟨hpa, b :: pre, suf, by rw [List.cons_append, heq], ?_⟩
      intro x hx
      rcases List.mem_cons.mp hx with he | hm
      · exact he ▸ hbf
      · exact hpre x hm

theorem get_board_eq_none_iff (boards : List TBoard) (n : String) :
    get_board boards n = none ↔ ∀ b ∈ boards, b.name ≠ n := by
  rw [get_board, head_filter_eq_none_iff]
  constructor
  · intro hall b hb
    exact beq_eq_false_iff_ne.mp (hall b hb)
  · intro hall b hb
    exact beq_eq_false_iff_ne.mpr (hall b hb)

theorem get_board_eq_some_first (boards : List TBoard) (n : String) (b : TBoard) :
    get_board boards n = some b →
      b.name = n ∧ ∃ pre suf, boards = pre ++ b :: suf ∧ ∀ x ∈ pre, x.name ≠ n := by
  intro h
  obtain ⟨hpa, pre, suf, heq, hpre⟩ := head_filter_eq_some _ _ _ h
  exact ⟨by simpa using hpa, pre, suf, heq,
    fun x hx => beq_eq_false_iff_ne.mp (hpre x hx)⟩

theorem get_list_eq_none_iff (bd : TBoard) (n : String) :
    get_list bd n = none ↔ ∀ l ∈ bd.openLists, l.name ≠ n := by
  rw [get_list, head_filter_eq_none_iff]
  constructor
  · intro hall l hl
    exact beq_eq_false_iff_ne.mp (hall l hl)
  · intro hall l hl
    exact beq_eq_false_iff_ne.mpr (hall l hl)

theorem get_list_eq_some_first (bd : TBoard) (n : String) (l : TList) :
    get_list bd n = some l →
      l.name = n ∧ ∃ pre suf, bd.openLists = pre ++ l :: suf ∧ ∀ x ∈ pre, x.name ≠ n := by
  intro h
  obtain ⟨hpa, pre, suf, heq, hpre⟩ := head_filter_eq_some _ _ _ h
  exact ⟨by simpa using hpa, pre, suf, heq,
    fun x hx => beq_eq_false_iff_ne.mp (hpre x hx)⟩

theorem main_run_board_missing (boards : List TBoard) (bn ipn dn : String)
    (top bottom : List String) (days : Option Int) (now : Int)
    (h : get_board boards bn = none) :
    main_run boards bn ipn dn top bottom days now = Except.error "assert b is not None" := by
  unfold main_run
  rw [h]

theorem main_run_ip_missing (boards : List TBoard) (bn ipn dn : String)
    (top bottom : List String) (days : Option Int) (now : Int) (b : TBoard)
    (h1 : get_board boards bn = some b) (h2 : get_list b ipn = none) :
    main_run boards bn ipn dn top bottom days now =
      Except.error "assert in_progress_list is not None" := by
  unfold main_run
  rw [h1]
  show main_with_board b ipn dn top bottom days now = _
  unfold main_with_board
  rw [h2]

theorem main_run_done_missing (boards : List TBoard) (bn ipn dn : String)
    (top bottom : List String) (days : Option Int) (now : Int) (b : TBoard) (ip : TList)
    (h1 : get_board boards bn = some b) (h2 : get_list b ipn = some ip)
    (h3 : get_list b dn = none) :
    main_run boards bn ipn dn top bottom days now =
      Except.error "assert done_list is not None" := by
  unfold main_run
  rw [h1]
  show main_with_board b ipn dn top bottom days now = _
  unfold main_with_board
  rw [h2, h3]

/-- C8: `get_board` and `get_list` return the first entity with the requested
name and `None` when there is none; when the board, the in-progress list or
the done list is missing, `main` aborts with the corresponding assertion
failure and produces no report (hence no card output). -/
theorem C8_missing_board_or_list_aborts (boards : List TBoard) (bn ipn dn : String)
    (top bottom : List String) (days : Option Int) (now : Int) :
    (get_board boards bn = none ↔ ∀ b ∈ boards, b.name ≠ bn) ∧
    (∀ b, get_board boards bn = some b →
      b.name = bn ∧ ∃ pre suf, boards = pre ++ b :: suf ∧ ∀ x ∈ pre, x.name ≠ bn) ∧
    (∀ bd : TBoard, ∀ n : String,
      (get_list bd n = none ↔ ∀ l ∈ bd.openLists, l.name ≠ n) ∧
      ∀ l, get_list bd n = some l →
        l.name = n ∧ ∃ pre suf, bd.openLists = pre ++ l :: suf ∧ ∀ x ∈ pre, x.name ≠ n) ∧
    (get_board boards bn = none →
      main_run boards bn ipn dn top bottom days now =
        Except.error "assert b is not None") ∧
    (∀ b, get_board boards bn = some b → get_list b ipn = none →
      main_run boards bn ipn dn top bottom days now =
        Except.error "assert in_progress_list is not None") ∧
    (∀ b ip, get_board boards bn = some b → get_list b ipn = some ip →
      get_list b dn = none →
      main_run boards bn ipn dn top bottom days now =
        Except.error "assert done_list is not None") := by
  refine ⟨get_board_eq_none_iff boards bn,
    fun b => get_board_eq_some_first boards bn b,
    fun bd n => ⟨get_list_eq_none_iff bd n, fun l => get_list_eq_some_first bd n l⟩,
    fun h => main_run_board_missing boards bn ipn dn top bottom days now h,
    fun b h1 h2 => main_run_ip_missing boards bn ipn dn top bottom days now b h1 h2,
    fun b ip h1 h2 h3 =>
      main_run_done_missing boards bn ipn dn top bottom days now b ip h1 h2 h3⟩

/-! ### The commented-out archiving call (C7) -/

/-- C7: `main` performs no post-report action in any mode — in particular the
done list's cards are never archived, although the header comment of the tool
announces archiving; the call `done_list.archive_all_cards()` is commented
out. -/
theorem C7_no_archiving_performed (days : Option Int) (dn : String) :
    main_final_actions days = [] ∧
    FinalAction.archiveAllCards dn ∉ main_final_actions days :=
  ⟨rfl, by simp [main_final_actions]⟩
